import Mathlib

/-!
Verification of the ai-l10n localization client.

The first half embeds `AiTranslator.translate` and `AiTranslator.performTranslation`
(`src/unnamed/part_004`) as pure functions over an explicit environment `Env` that
stands for the external collaborators (file system, API-key manager, translation
service, and the `I18nProjectManager` helper methods the orchestrator calls).
A thrown JavaScript error is `Except.error`; the `try`/`catch` wrappers of the
source become explicit `match` recoveries.

The second half models the project-structure / language-tag core
(`I18nProjectManager`), whose implementation file is not part of the sources at
hand; those definitions are modelled from the specification and are marked as such.
-/

namespace AiL10n

/-- Request sent to the translation service; the fields `AiTranslator.performTranslation`
fills in (src/unnamed/part_004 lines 326-337). The `schema` field is `ARBFlutter` or
`null` in the source; here it is the boolean `isArbSchema`. -/
structure TranslationRequest where
  sourceStrings : String
  targetLanguageCode : String
  useContractions : Bool
  useShortening : Bool
  generatePluralForms : Bool
  client : String
  returnTranslationsAsString : Bool
  translateOnlyNewStrings : Bool
  targetStrings : Option String
  isArbSchema : Bool
  deriving DecidableEq

/-- The parts of a `TranslationResult` from the service that `performTranslation`
inspects: `translations` (possibly absent or empty), `usage.charsUsed`, and
`remainingBalance`. -/
structure ServiceResult where
  translations : Option String
  charsUsed : Option Nat
  remainingBalance : Option Int
  deriving DecidableEq

/-- `TranslationConfig` (src/unnamed/part_004 lines 19-71); optional fields are `Option`. -/
structure TranslationConfig where
  sourceFile : String
  targetLanguages : Option (List String) := none
  apiKey : Option String := none
  generatePluralForms : Option Bool := none
  useShortening : Option Bool := none
  useContractions : Option Bool := none
  saveFilteredStrings : Option Bool := none
  translateOnlyNewStrings : Option Bool := none
  verbose : Option Bool := none

/-- `TranslationOutput` (src/unnamed/part_004 lines 76-82), extended with the
`remainingBalance` field that `performTranslation` adds to its return type. -/
structure TranslationOutput where
  success : Bool
  language : String
  outputPath : Option String := none
  charsUsed : Option Nat := none
  error : Option String := none
  remainingBalance : Option Int := none
  deriving DecidableEq

/-- `TranslationSummary` (src/unnamed/part_004 lines 87-92). -/
structure TranslationSummary where
  success : Bool
  results : List TranslationOutput
  totalCharsUsed : Nat
  remainingBalance : Option Int := none
  deriving DecidableEq

/-- The external collaborators of `AiTranslator`: path resolution, file-system
probes and reads, the API-key manager (which may throw), the project manager
helpers, and the remote translation service (which may throw or return `null`). -/
structure Env where
  resolvePath : String → String
  pathExists : String → Bool
  extname : String → String
  ensureApiKey : Option String → Except String String
  readFile : String → String
  detectLanguagesFromProject : String → List String
  validateLanguageCode : String → Bool
  generateTargetFilePath : String → String → String
  getUniqueFilePath : String → String
  normalizeLanguageCode : String → String
  serviceTranslate : TranslationRequest → String → Except String (Option ServiceResult)

/-- `AiTranslator.performTranslation` (src/unnamed/part_004 lines 296-386).
Reads the source file, reads the target file when updating incrementally, builds
the request, calls the service, and on success picks the output path: the built
target path itself when `translateOnlyNewStrings`, otherwise the unique path
(lines 358-362). The `outputPath` of a successful result is exactly the path
handed to `fs.writeFileSync` (line 365). -/
def performTranslation (env : Env) (apiKey sourceFilePath targetLanguage targetFilePath : String)
    (translateOnlyNewStrings useContractions useShortening generatePluralForms
      saveFilteredStrings isArbFile : Bool) : Except String TranslationOutput :=
  let sourceContent := env.readFile sourceFilePath
  let targetStrings : Option String :=
    if translateOnlyNewStrings && env.pathExists targetFilePath then
      some (env.readFile targetFilePath)
    else none
  let normalizedLanguage := env.normalizeLanguageCode targetLanguage
  let request : TranslationRequest :=
    { sourceStrings := sourceContent
      targetLanguageCode := normalizedLanguage
      useContractions := useContractions
      useShortening := useShortening
      generatePluralForms := generatePluralForms
      client := "npm-package"
      returnTranslationsAsString := true
      translateOnlyNewStrings := translateOnlyNewStrings
      targetStrings := targetStrings
      isArbSchema := isArbFile }
  match env.serviceTranslate request apiKey with
  | .error e => .error e
  | .ok none =>
      .ok { success := false, language := targetLanguage,
            error := some "Translation service returned no result" }
  | .ok (some result) =>
      if (result.translations.getD "").isEmpty then
        .ok { success := false, language := targetLanguage,
              error := some "No translation results received" }
      else
        let outputPath :=
          if translateOnlyNewStrings then targetFilePath
          else env.getUniqueFilePath targetFilePath
        .ok { success := true, language := targetLanguage,
              outputPath := some outputPath,
              charsUsed := some (result.charsUsed.getD 0),
              remainingBalance := result.remainingBalance }

/-- The per-language `try`/`catch` wrapper inside `translate`
(src/unnamed/part_004 lines 201-234): a thrown error becomes a failed
`TranslationOutput` carrying the error message. -/
def translateOne (env : Env) (apiKey sourceFilePath targetLanguage targetFilePath : String)
    (translateOnlyNewStrings useContractions useShortening generatePluralForms
      saveFilteredStrings isArbFile : Bool) : TranslationOutput :=
  match performTranslation env apiKey sourceFilePath targetLanguage targetFilePath
      translateOnlyNewStrings useContractions useShortening generatePluralForms
      saveFilteredStrings isArbFile with
  | .ok r => r
  | .error msg => { success := false, language := targetLanguage, error := some msg }

/-- The error message thrown when auto-detection finds no languages
(src/unnamed/part_004 lines 152-155). -/
def noTargetLanguagesMsg : String :=
  "No target languages found. Please specify targetLanguages in config or ensure your project has the proper structure (e.g., folders named with language codes or files named with language codes)."

/-- Auto-detection step: ask the project manager, throw when the result is empty
(src/unnamed/part_004 lines 147-155). -/
def detectStep (env : Env) (sourceFilePath : String) : Except String (List String) :=
  let detected := env.detectLanguagesFromProject sourceFilePath
  if detected.isEmpty then .error noTargetLanguagesMsg else .ok detected

/-- Target-language resolution (src/unnamed/part_004 lines 144-162): auto-detect
exactly when the supplied list is missing or empty. -/
def resolveTargetLanguages (env : Env) (sourceFilePath : String)
    (supplied : Option (List String)) : Except String (List String) :=
  match supplied with
  | some ls => if ls.isEmpty then detectStep env sourceFilePath else .ok ls
  | none => detectStep env sourceFilePath

/-- The unsupported-extension error message (src/unnamed/part_004 lines 130-134). -/
def unsupportedFileTypeMsg (ext : String) : String :=
  "Unsupported file type: " ++ ext ++ ". Only .json, .jsonc, and .arb files are supported."

/-- The body of the remaining-balance accumulation loop
(src/unnamed/part_004 lines 245-254): a defined balance replaces the accumulator
when it is strictly smaller than the current one (`Infinity` when undefined). -/
def balanceStep (acc : Option Int) (r : TranslationOutput) : Option Int :=
  match r.remainingBalance, acc with
  | some b, none => some b
  | some b, some a => if b < a then some b else some a
  | none, acc₀ => acc₀

/-- The body of the `try` block of `AiTranslator.translate`
(src/unnamed/part_004 lines 114-283); `Except.error` is a thrown error. -/
def translateCore (env : Env) (config : TranslationConfig) : Except String TranslationSummary :=
  if config.sourceFile = "" then .error "sourceFile is required"
  else
    let sourceFilePath := env.resolvePath config.sourceFile
    if !env.pathExists sourceFilePath then .error ("Source file not found: " ++ sourceFilePath)
    else
      let fileExtension := env.extname sourceFilePath
      let isArbFile := fileExtension == ".arb"
      let isJsonFile := fileExtension == ".json" || fileExtension == ".jsonc"
      if !isArbFile && !isJsonFile then .error (unsupportedFileTypeMsg fileExtension)
      else
        match env.ensureApiKey config.apiKey with
        | .error e => .error e
        | .ok apiKey =>
          match resolveTargetLanguages env sourceFilePath config.targetLanguages with
          | .error e => .error e
          | .ok targetLanguages =>
            match targetLanguages.find? (fun lang => !env.validateLanguageCode lang) with
            | some lang => .error ("Invalid language code: " ++ lang)
            | none =>
              let useContractions := config.useContractions.getD true
              let useShortening := config.useShortening.getD false
              let generatePluralForms := config.generatePluralForms.getD false
              let saveFilteredStrings := config.saveFilteredStrings.getD true
              let translateOnlyNewStrings := config.translateOnlyNewStrings.getD false
              let results := targetLanguages.map (fun lang =>
                translateOne env apiKey sourceFilePath lang
                  (env.generateTargetFilePath sourceFilePath lang)
                  translateOnlyNewStrings useContractions useShortening
                  generatePluralForms saveFilteredStrings isArbFile)
              let totalCharsUsed := results.foldl (fun acc r => acc + r.charsUsed.getD 0) 0
              let remainingBalance := results.foldl balanceStep (none : Option Int)
              .ok { success := decide (0 < (results.filter (fun r => r.success)).length)
                    results := results
                    totalCharsUsed := totalCharsUsed
                    remainingBalance := remainingBalance }

/-- `AiTranslator.translate` (src/unnamed/part_004 lines 111-294): the outer
`catch` turns any thrown error into the failure summary of lines 288-292. -/
def translate (env : Env) (config : TranslationConfig) : TranslationSummary :=
  match translateCore env config with
  | .ok summary => summary
  | .error _ => { success := false, results := [], totalCharsUsed := 0 }

/-- A concrete environment for witnesses: every path exists, every file is `.json`,
and the service succeeds for every language except `fr`, where it throws. -/
def envW : Env :=
  { resolvePath := fun p => p
    pathExists := fun _ => true
    extname := fun _ => ".json"
    ensureApiKey := fun _ => .ok "key"
    readFile := fun _ => "src"
    detectLanguagesFromProject := fun _ => ["fr"]
    validateLanguageCode := fun _ => true
    generateTargetFilePath := fun _ lang => lang ++ ".json"
    getUniqueFilePath := fun p => "u-" ++ p
    normalizeLanguageCode := fun c => c
    serviceTranslate := fun req _ =>
      if req.targetLanguageCode = "fr" then .error "boom"
      else .ok (some { translations := some "tr", charsUsed := some 10,
                       remainingBalance := some 100 }) }

/-- `envW` with a project structure in which detection finds nothing. -/
def envWempty : Env := { envW with detectLanguagesFromProject := fun _ => [] }

/-- Witness configuration with one supplied target language. -/
def cfgW1 : TranslationConfig := { sourceFile := "en.json", targetLanguages := some ["es"] }

/-- Witness configuration with no supplied target languages. -/
def cfgW2 : TranslationConfig := { sourceFile := "en.json" }

/-- Witness configuration with one succeeding and one failing target language. -/
def cfgW9 : TranslationConfig := { sourceFile := "en.json", targetLanguages := some ["es", "fr"] }

/-- The per-language output `envW` produces for `es`. -/
def outWes : TranslationOutput :=
  { success := true, language := "es", outputPath := some "u-es.json",
    charsUsed := some 10, error := none, remainingBalance := some 100 }

/-- The per-language output `envW` produces for `fr`. -/
def outWfr : TranslationOutput :=
  { success := false, language := "fr", error := some "boom" }

/-- The summary `envW` produces for `cfgW1`. -/
def sumW1 : TranslationSummary :=
  { success := true, results := [outWes], totalCharsUsed := 10, remainingBalance := some 100 }

/-- The summary `envW` produces for `cfgW9`. -/
def sumW9 : TranslationSummary :=
  { success := true, results := [outWes, outWfr], totalCharsUsed := 10,
    remainingBalance := some 100 }

/-- Separator characters of a language tag: hyphen or underscore (spec section 4.1). -/
def isSep (c : Char) : Bool := c = '-' || c = '_'

/-- Split a character list at every character satisfying `p`; the separators are
dropped and the (possibly empty) fragments between them are returned in order. -/
def splitByP (p : Char → Bool) : List Char → List (List Char)
  | [] => [[]]
  | c :: cs =>
    if p c then [] :: splitByP p cs
    else
      match splitByP p cs with
      | [] => [[c]]
      | s :: rest => (c :: s) :: rest

/-- Join fragments with a separator character; inverse of `splitByP` on
separator-free fragments. -/
def joinWith (sep : Char) : List (List Char) → List Char
  | [] => []
  | [s] => s
  | s :: rest => s ++ sep :: joinWith sep rest

/-- The segments of a candidate language tag: split at `-` and `_` (spec section 4.1). -/
def splitSegs : List Char → List (List Char) := splitByP isSep

/-- A segment of basic latin letters only. -/
def isAlphaSeg (s : List Char) : Bool := s.all Char.isAlpha

/-- A segment of decimal digits only. -/
def isDigitSeg (s : List Char) : Bool := s.all Char.isDigit

/-- Language segment: 2-3 alphabetic characters (spec section 4.1). -/
def isLangSeg (s : List Char) : Bool :=
  (decide (2 ≤ s.length) && decide (s.length ≤ 3)) && isAlphaSeg s

/-- Script segment: exactly 4 alphabetic characters (spec section 4.1). -/
def isScriptSeg (s : List Char) : Bool := decide (s.length = 4) && isAlphaSeg s

/-- Region segment: 2-3 alphabetic characters or exactly 3 digits (spec section 4.1). -/
def isRegionSeg (s : List Char) : Bool :=
  ((decide (2 ≤ s.length) && decide (s.length ≤ 3)) && isAlphaSeg s)
    || (decide (s.length = 3) && isDigitSeg s)

/-- The fixed segment order of a tag: language, optional script, optional region
(spec section 4.1); shared between the validator and the ARB stem parser. -/
def isValidSegsStructure : List (List Char) → Bool
  | [l] => isLangSeg l
  | [l, x] => isLangSeg l && (isScriptSeg x || isRegionSeg x)
  | [l, sc, r] => isLangSeg l && isScriptSeg sc && isRegionSeg r
  | _ => false

/-- Modelled from the spec: the Language Tag Validator (`isValidLanguageTag`,
spec section 4.1; `I18nProjectManager.validateLanguageCode`, whose implementation
file is not among the sources - only its documentation, tests and callers are).
Case-insensitive structural check of `language[-Script][-Region]` with `-` or `_`
separators. -/
def isValidLanguageTag (s : String) : Bool := isValidSegsStructure (splitSegs s.toList)

/-- Lowercase every character of a segment. -/
def lowerSeg (s : List Char) : List Char := s.map Char.toLower

/-- Uppercase every character of a segment. -/
def upperSeg (s : List Char) : List Char := s.map Char.toUpper

/-- Title-case a segment: first character uppercase, the rest lowercase
(spec section 4.2). -/
def titleSeg : List Char → List Char
  | [] => []
  | c :: cs => Char.toUpper c :: cs.map Char.toLower

/-- Normalize a non-leading segment: a 4-letter segment is a script and is
title-cased, any other is a region and is uppercased (spec section 4.2). -/
def normTail (s : List Char) : List Char :=
  if s.length = 4 then titleSeg s else upperSeg s

/-- Normalize the segment list: the leading language segment is lowercased and
every later segment goes through `normTail` (spec section 4.2). -/
def normSegs : List (List Char) → List (List Char)
  | [] => []
  | l :: rest => lowerSeg l :: rest.map normTail

/-- Modelled from the spec: the Language Tag Normalizer (`normalizeLanguageTag`,
spec section 4.2; `I18nProjectManager.normalizeLanguageCode`, whose implementation
file is not among the sources). Splits on `-`/`_`, lowercases the language,
title-cases a 4-letter script, uppercases a region, re-joins with `-`. -/
def normalizeLanguageTag (s : String) : String :=
  ⟨joinWith '-' (normSegs (splitSegs s.toList))⟩

/-- Computable lexicographic comparison of character lists, used so that the
alphabetical sort of the Detector evaluates inside the kernel; proved below to
decide the standard order on `String`. -/
def charListLe : List Char → List Char → Bool
  | [], _ => true
  | _ :: _, [] => false
  | a :: as, b :: bs =>
      if a < b then true
      else if b < a then false
      else charListLe as bs

/-- Computable alphabetical comparison of strings. -/
def tagLe (a b : String) : Bool := charListLe a.toList b.toList

/-- The dot-separated parts of a file name; the last part is the extension. -/
def dotSplit (l : List Char) : List (List Char) := splitByP (fun c => c = '.') l

/-- The literal `default` marker part of the Shopify theme naming pattern. -/
def defaultSeg : List Char := "default".toList

/-- Split an underscore-separated ARB stem into literal prefix and the longest
trailing run of segments forming a valid tag (spec section 4.3, edge case policy:
prefer the maximal parse). Returns `none` when no trailing tag exists. -/
def splitTrailingTag : List (List Char) → Option (List (List Char) × List (List Char))
  | [] => none
  | s :: rest =>
      if isValidSegsStructure (s :: rest) then some ([], s :: rest)
      else
        match splitTrailingTag rest with
        | some (pre, tag) => some (s :: pre, tag)
        | none => none

/-- Modelled from the spec: the Filename Language Extractor (`extractLanguageTag`,
spec section 4.3; `I18nProjectManager.extractLanguageCode`, whose implementation
file is not among the sources). ARB names yield the longest trailing
underscore-joined valid tag after a literal prefix; JSON/JSONC names yield the tag
before a `.default.` marker (Shopify), else the full stem when it is a valid tag,
else the first dot-part when it is a valid tag (suffix-only Shopify form, e.g.
`es-ES.schema.json`); everything else is absent. Per the tie-break policy of spec
section 4.5, the ARB rule takes precedence over the Shopify rule. -/
def extractLanguageTag (fileName : String) : Option String :=
  let parts := dotSplit fileName.toList
  let ext := parts.getLastD []
  let stemParts := parts.dropLast
  if ext = "arb".toList then
    match splitTrailingTag (splitByP (fun c => c = '_') (joinWith '.' stemParts)) with
    | some (_, tag) => some ⟨joinWith '_' tag⟩
    | none => none
  else if ext = "json".toList ∨ ext = "jsonc".toList then
    match stemParts.findIdx? (fun s => s == defaultSeg) with
    | some i =>
        if i = 0 then none
        else
          let tag := joinWith '.' (stemParts.take i)
          if isValidSegsStructure (splitSegs tag) then some ⟨tag⟩ else none
    | none =>
        let stem := joinWith '.' stemParts
        if isValidSegsStructure (splitSegs stem) then some ⟨stem⟩
        else
          match stemParts with
          | first :: _ =>
              if isValidSegsStructure (splitSegs first) then some ⟨first⟩ else none
          | [] => none
  else none

/-- The directory information the Project Structure Detector consumes, handed over
as plain lists per the design note of spec section 9: the name of the source
file's parent directory, the sibling directories of that parent with their file
names (for the folder-based layout), and the files that sit next to the source
(for the file-based layouts). -/
structure DirSnapshot where
  parentDirName : String
  siblingDirs : List (String × List String)
  filesInDir : List String

/-- The extension part (after the last dot) of a file name. -/
def fileExt (fileName : String) : List Char := (dotSplit fileName.toList).getLastD []

/-- `.json` and `.jsonc` are interchangeable members of the JSON extension family
(spec section 4.4). -/
def isJsonFamilyExt (e : List Char) : Bool := e == "json".toList || e == "jsonc".toList

/-- Two file names belong to the same extension family: both JSON/JSONC or both ARB. -/
def sameExtFamily (a b : String) : Bool :=
  (isJsonFamilyExt (fileExt a) && isJsonFamilyExt (fileExt b))
    || (fileExt a == "arb".toList && fileExt b == "arb".toList)

/-- Modelled from the spec: the Project Structure Detector (`detectTargetLanguages`,
spec section 4.4; `I18nProjectManager.detectLanguagesFromProject`, whose
implementation file is not among the sources). Extract the source's own tag (absent
means empty result); if the parent directory name is a valid tag use the
folder-based check (sibling directories with valid-tag names containing a file with
the source's name), otherwise the file-based check (same-extension-family files in
the source's directory run through the Extractor); then exclude the source's own
tag, deduplicate and sort alphabetically. -/
def detectTargetLanguages (sourceFileName : String) (fs : DirSnapshot) : List String :=
  match extractLanguageTag sourceFileName with
  | none => []
  | some srcTag =>
      let found :=
        if isValidLanguageTag fs.parentDirName then
          fs.siblingDirs.filterMap (fun d =>
            if isValidLanguageTag d.1 && d.2.contains sourceFileName then some d.1 else none)
        else
          fs.filesInDir.filterMap (fun f =>
            if sameExtFamily f sourceFileName then extractLanguageTag f else none)
      List.insertionSort (fun a b => tagLe a b = true) ((found.filter (fun t => t != srcTag)).dedup)

/-- ARB convention: hyphens of a tag become underscores (spec section 4.5). -/
def hyphensToUnderscores (l : List Char) : List Char :=
  l.map (fun c => if c = '-' then '_' else c)

/-- Modelled from the spec: the Target Path Builder (`buildTargetPath`, spec
section 4.5; `I18nProjectManager.generateTargetFilePath`, whose implementation file
is not among the sources). Folder-based: replace the language-named parent
directory. ARB: keep the literal prefix, join it to the target tag with `_`,
converting hyphens in the tag to underscores. Shopify: drop the `.default.` marker
and substitute the language, preserving a trailing `.schema.`. Plain JSON/JSONC:
replace the leading tag of the stem, preserving any suffix. Precedence
ARB > Shopify > plain per the tie-break policy; an unclassifiable source path
fails loudly with `none` (spec section 7). -/
def buildTargetPath (sourceFilePath : String) (targetLanguage : String) : Option String :=
  let comps := splitByP (fun c => c = '/') sourceFilePath.toList
  let fileName := comps.getLastD []
  let dirs := comps.dropLast
  if !dirs.isEmpty && isValidSegsStructure (splitSegs (dirs.getLastD [])) then
    some ⟨joinWith '/' (dirs.dropLast ++ [targetLanguage.toList, fileName])⟩
  else
    let parts := dotSplit fileName
    let ext := parts.getLastD []
    let stemParts := parts.dropLast
    if ext = "arb".toList then
      match splitTrailingTag (splitByP (fun c => c = '_') (joinWith '.' stemParts)) with
      | some (pre, _) =>
          let newStem := if pre = [] then hyphensToUnderscores targetLanguage.toList
            else joinWith '_' pre ++ '_' :: hyphensToUnderscores targetLanguage.toList
          some ⟨joinWith '/' (dirs ++ [newStem ++ ".arb".toList])⟩
      | none => none
    else if ext = "json".toList ∨ ext = "jsonc".toList then
      match stemParts.findIdx? (fun s => s == defaultSeg) with
      | some i =>
          if i = 0 then none
          else some ⟨joinWith '/' (dirs ++
            [joinWith '.' (targetLanguage.toList :: stemParts.drop (i + 1)) ++ '.' :: ext])⟩
      | none =>
          match stemParts with
          | first :: restStem =>
              if isValidSegsStructure (splitSegs first) then
                some ⟨joinWith '/' (dirs ++
                  [joinWith '.' (targetLanguage.toList :: restStem) ++ '.' :: ext])⟩
              else none
          | [] => none
    else none

/-- Decimal digits of a counter, least significant first; fuel-based so that the
definition is structurally recursive. -/
def decDigitsAux : Nat → Nat → List Nat
  | 0, _ => []
  | _ + 1, 0 => []
  | fuel + 1, n + 1 => ((n + 1) % 10) :: decDigitsAux fuel ((n + 1) / 10)

/-- Value of a least-significant-first decimal digit list; inverse of `decDigitsAux`. -/
def fromDigits : List Nat → Nat
  | [] => 0
  | d :: ds => d + 10 * fromDigits ds

/-- Decimal rendering of a counter. -/
def natToChars (n : Nat) : List Char :=
  if n = 0 then ['0'] else (decDigitsAux n n).reverse.map Nat.digitChar

/-- Decode a decimal rendering; a left inverse of `natToChars`. -/
def charsToNum (l : List Char) : Nat := fromDigits (l.map (fun c => c.toNat - 48)).reverse

/-- Split a path into the part before the extension and the extension (with its
dot); a name without a dot has an empty extension. -/
def splitExtChars (l : List Char) : List Char × List Char :=
  match dotSplit l with
  | [] => (l, [])
  | [_] => (l, [])
  | parts => (joinWith '.' parts.dropLast, '.' :: parts.getLastD [])

/-- Insert the parenthesized counter ` (k)` before the extension:
`output.json` becomes `output (k).json` (spec section 4.6). -/
def insertCounter (filePath : String) (k : Nat) : String :=
  ⟨(splitExtChars filePath.toList).1 ++
    ' ' :: '(' :: (natToChars k ++ ')' :: (splitExtChars filePath.toList).2)⟩

/-- The counter loop of the Unique Path Resolver: try ` (k)`, ` (k+1)`, ... until a
candidate does not exist. The fuel only guards the recursion; `uniquePath` passes
enough fuel for the loop to always find a free candidate (proved below). -/
def uniqueAux (existing : List String) (filePath : String) : Nat → Nat → String
  | 0, k => insertCounter filePath k
  | fuel + 1, k =>
      if insertCounter filePath k ∈ existing then uniqueAux existing filePath fuel (k + 1)
      else insertCounter filePath k

/-- Modelled from the spec: the Unique Path Resolver (`uniquePath`, spec
section 4.6; `I18nProjectManager.getUniqueFilePath`, whose implementation file is
not among the sources). The file system is an explicit list of existing paths. A
path that does not exist is returned unchanged; otherwise a counter in parentheses
is inserted before the extension, starting at `(1)` and incrementing until an
unused path is found. -/
def uniquePath (existing : List String) (filePath : String) : String :=
  if filePath ∈ existing then uniqueAux existing filePath (existing.length + 1) 1
  else filePath

/-- A returned (not thrown) `performTranslation` result is labelled with the target
language. -/
theorem performTranslation_ok_language (env : Env) (apiKey src lang tfp : String)
    (b1 b2 b3 b4 b5 b6 : Bool) (r : TranslationOutput)
    (h : performTranslation env apiKey src lang tfp b1 b2 b3 b4 b5 b6 = .ok r) :
    r.language = lang := by
  unfold performTranslation at h
  dsimp only at h
  split at h
  · exact absurd h (by simp)
  · injection h with h
    subst h
    rfl
  · split at h <;>
      · injection h with h
        subst h
        rfl

/-- A successful `performTranslation` result carries exactly the path that was
written: the built target path under incremental update, the unique path otherwise. -/
theorem performTranslation_ok_outputPath (env : Env) (apiKey src lang tfp : String)
    (tOnly uC uS gP sF arb : Bool) (r : TranslationOutput)
    (h : performTranslation env apiKey src lang tfp tOnly uC uS gP sF arb = .ok r)
    (hs : r.success = true) :
    r.outputPath = some (if tOnly then tfp else env.getUniqueFilePath tfp) := by
  unfold performTranslation at h
  dsimp only at h
  split at h
  · exact absurd h (by simp)
  · injection h with h
    subst h
    exact absurd hs (by simp)
  · split at h
    · injection h with h
      subst h
      exact absurd hs (by simp)
    · injection h with h
      subst h
      rfl

/-- Every branch of `translateOne` labels its result with the target language. -/
theorem translateOne_language (env : Env) (apiKey src lang tfp : String)
    (b1 b2 b3 b4 b5 b6 : Bool) :
    (translateOne env apiKey src lang tfp b1 b2 b3 b4 b5 b6).language = lang := by
  unfold translateOne
  cases hp : performTranslation env apiKey src lang tfp b1 b2 b3 b4 b5 b6 with
  | error msg => rfl
  | ok r => exact performTranslation_ok_language env apiKey src lang tfp b1 b2 b3 b4 b5 b6 r hp

/-- A successful `translateOne` reports exactly the path that was written: the built
target path under incremental update, the unique path otherwise. -/
theorem translateOne_success_outputPath (env : Env) (apiKey src lang tfp : String)
    (tOnly uC uS gP sF arb : Bool)
    (h : (translateOne env apiKey src lang tfp tOnly uC uS gP sF arb).success = true) :
    (translateOne env apiKey src lang tfp tOnly uC uS gP sF arb).outputPath =
      some (if tOnly then tfp else env.getUniqueFilePath tfp) := by
  unfold translateOne at h ⊢
  cases hp : performTranslation env apiKey src lang tfp tOnly uC uS gP sF arb with
  | error msg =>
      rw [hp] at h
      exact absurd h (by simp)
  | ok r =>
      rw [hp] at h
      exact performTranslation_ok_outputPath env apiKey src lang tfp tOnly uC uS gP sF arb r hp h

/-- Inversion of a successful `translateCore` run: recover the API key, the resolved
target languages, the shape of the results list and of the three aggregates. -/
theorem translateCore_ok_inv {env : Env} {config : TranslationConfig}
    {s : TranslationSummary} (h : translateCore env config = .ok s) :
    ∃ apiKey targetLanguages,
      env.ensureApiKey config.apiKey = .ok apiKey ∧
      resolveTargetLanguages env (env.resolvePath config.sourceFile) config.targetLanguages =
        .ok targetLanguages ∧
      s.results = targetLanguages.map (fun lang =>
        translateOne env apiKey (env.resolvePath config.sourceFile) lang
          (env.generateTargetFilePath (env.resolvePath config.sourceFile) lang)
          (config.translateOnlyNewStrings.getD false) (config.useContractions.getD true)
          (config.useShortening.getD false) (config.generatePluralForms.getD false)
          (config.saveFilteredStrings.getD true)
          (env.extname (env.resolvePath config.sourceFile) == ".arb")) ∧
      s.success = decide (0 < (s.results.filter (fun r => r.success)).length) ∧
      s.totalCharsUsed = s.results.foldl (fun acc r => acc + r.charsUsed.getD 0) 0 ∧
      s.remainingBalance = s.results.foldl balanceStep none := by
  unfold translateCore at h
  dsimp only at h
  split at h
  · exact absurd h (by simp)
  · split at h
    · exact absurd h (by simp)
    · split at h
      · exact absurd h (by simp)
      · split at h
        · exact absurd h (by simp)
        · next apiKey hkey =>
            split at h
            · exact absurd h (by simp)
            · next langs hlangs =>
                split at h
                · exact absurd h (by simp)
                · injection h with h
                  subst h
                  exact ⟨apiKey, langs, hkey, hlangs, rfl, rfl, rfl, rfl⟩

/-- C1: for every translation invocation, a successful per-language result is written
to `getUniqueFilePath` of the built target path when `translateOnlyNewStrings` is
false, and to the built target path itself when it is true. -/
theorem outputPath_unique_iff_not_incremental (env : Env) (config : TranslationConfig)
    (s : TranslationSummary) (h : translateCore env config = .ok s)
    (r : TranslationOutput) (hr : r ∈ s.results) (hs : r.success = true) :
    r.outputPath = some (
      if config.translateOnlyNewStrings.getD false then
        env.generateTargetFilePath (env.resolvePath config.sourceFile) r.language
      else
        env.getUniqueFilePath
          (env.generateTargetFilePath (env.resolvePath config.sourceFile) r.language)) := by
  obtain ⟨apiKey, langs, _, _, hres, _⟩ := translateCore_ok_inv h
  rw [hres] at hr
  obtain ⟨lang, _, rfl⟩ := List.mem_map.mp hr
  rw [translateOne_language]
  exact translateOne_success_outputPath env apiKey (env.resolvePath config.sourceFile) lang
    (env.generateTargetFilePath (env.resolvePath config.sourceFile) lang) _ _ _ _ _ _ hs

/-- C3: an empty source path makes the translate operation throw
`sourceFile is required` (src/unnamed/part_004 lines 116-118). -/
theorem translate_empty_source_throws (env : Env) (config : TranslationConfig)
    (h : config.sourceFile = "") :
    translateCore env config = .error "sourceFile is required" := by
  unfold translateCore
  rw [if_pos h]

/-- C8: `translate` never propagates an exception: any error thrown inside the
`try` block is caught and yields the failure summary with no results and zero
characters used (src/unnamed/part_004 lines 284-293). -/
theorem translate_never_rejects (env : Env) (config : TranslationConfig) (e : String)
    (h : translateCore env config = .error e) :
    translate env config =
      { success := false, results := [], totalCharsUsed := 0, remainingBalance := none } := by
  unfold translate
  rw [h]

/-- C2: auto-detection happens exactly when the supplied target-language list is
missing or empty; a supplied non-empty list is used as is (independently of what
detection would return), and when detection yields an empty sequence the operation
throws the `No target languages found` error. -/
theorem autodetect_iff_no_supplied (env : Env) (config : TranslationConfig) :
    (∀ ls, config.targetLanguages = some ls → ls ≠ [] →
      resolveTargetLanguages env (env.resolvePath config.sourceFile) config.targetLanguages =
        .ok ls) ∧
    ((config.targetLanguages = none ∨ config.targetLanguages = some []) →
      resolveTargetLanguages env (env.resolvePath config.sourceFile) config.targetLanguages =
        (if env.detectLanguagesFromProject (env.resolvePath config.sourceFile) = []
         then .error noTargetLanguagesMsg
         else .ok (env.detectLanguagesFromProject (env.resolvePath config.sourceFile)))) ∧
    (config.sourceFile ≠ "" →
      env.pathExists (env.resolvePath config.sourceFile) = true →
      (env.extname (env.resolvePath config.sourceFile) == ".arb"
        || env.extname (env.resolvePath config.sourceFile) == ".json"
        || env.extname (env.resolvePath config.sourceFile) == ".jsonc") = true →
      ∀ apiKey, env.ensureApiKey config.apiKey = .ok apiKey →
      resolveTargetLanguages env (env.resolvePath config.sourceFile) config.targetLanguages =
        .error noTargetLanguagesMsg →
      translateCore env config = .error noTargetLanguagesMsg) := by
  refine ⟨?_, ?_, ?_⟩
  · intro ls hls hne
    rw [hls]
    unfold resolveTargetLanguages
    dsimp only
    rw [if_neg (by simpa [List.isEmpty_iff] using hne)]
  · intro hcase
    have hres : resolveTargetLanguages env (env.resolvePath config.sourceFile)
        config.targetLanguages = detectStep env (env.resolvePath config.sourceFile) := by
      rcases hcase with hnone | hempty
      · rw [hnone]
        rfl
      · rw [hempty]
        rfl
    rw [hres]
    unfold detectStep
    dsimp only
    rcases hd : env.detectLanguagesFromProject (env.resolvePath config.sourceFile) with _ | ⟨a, t⟩
    · rfl
    · rw [if_neg (by simp)]
      rw [if_neg (by simp [List.isEmpty_iff])]
  · intro hsrc hex hext apiKey hkey hres
    unfold translateCore
    rw [if_neg hsrc]
    dsimp only
    have h2 : (!env.pathExists (env.resolvePath config.sourceFile)) ≠ true := by
      rw [hex]
      decide
    rw [if_neg h2]
    have h3 : (!(env.extname (env.resolvePath config.sourceFile) == ".arb") &&
        !(env.extname (env.resolvePath config.sourceFile) == ".json"
          || env.extname (env.resolvePath config.sourceFile) == ".jsonc")) ≠ true := by
      revert hext
      cases env.extname (env.resolvePath config.sourceFile) == ".arb" <;>
        cases env.extname (env.resolvePath config.sourceFile) == ".json" <;>
          cases env.extname (env.resolvePath config.sourceFile) == ".jsonc" <;> decide
    rw [if_neg h3]
    rw [hkey]
    dsimp only
    rw [hres]

/-- C9: per-language failures are isolated. A successful run reports success if and
only if some per-language result succeeded; the results list has exactly one entry
per resolved target language, in order; and a language whose translation throws
yields a failed output carrying the error message for that language only. -/
theorem per_language_isolation (env : Env) (config : TranslationConfig)
    (s : TranslationSummary) (h : translateCore env config = .ok s) :
    ((s.success = true) ↔ ∃ r ∈ s.results, r.success = true) ∧
    (∃ langs, resolveTargetLanguages env (env.resolvePath config.sourceFile)
        config.targetLanguages = .ok langs ∧
      s.results.map (fun r => r.language) = langs) ∧
    (∀ apiKey src lang tfp : String, ∀ tOnly uC uS gP sF arb : Bool, ∀ m : String,
      performTranslation env apiKey src lang tfp tOnly uC uS gP sF arb = .error m →
      translateOne env apiKey src lang tfp tOnly uC uS gP sF arb =
        { success := false, language := lang, error := some m }) := by
  obtain ⟨apiKey, langs, _, hlangs, hres, hsucc, _, _⟩ := translateCore_ok_inv h
  refine ⟨?_, ⟨langs, hlangs, ?_⟩, ?_⟩
  · rw [hsucc]
    simp only [decide_eq_true_eq]
    rw [← List.countP_eq_length_filter]
    exact List.countP_pos_iff
  · rw [hres, List.map_map]
    have : ((fun r : TranslationOutput => r.language) ∘ (fun lang =>
        translateOne env apiKey (env.resolvePath config.sourceFile) lang
          (env.generateTargetFilePath (env.resolvePath config.sourceFile) lang)
          (config.translateOnlyNewStrings.getD false) (config.useContractions.getD true)
          (config.useShortening.getD false) (config.generatePluralForms.getD false)
          (config.saveFilteredStrings.getD true)
          (env.extname (env.resolvePath config.sourceFile) == ".arb"))) = fun lang => lang := by
      funext lang
      exact translateOne_language env apiKey (env.resolvePath config.sourceFile) lang _ _ _ _ _ _ _
    rw [this, List.map_id']
  · intro apiKey₀ src lang tfp tOnly uC uS gP sF arb m hm
    unfold translateOne
    rw [hm]

/-- The balance loop starting from a defined accumulator computes the running
minimum of the defined balances. -/
theorem foldl_balanceStep_some (l : List TranslationOutput) (a : Int) :
    l.foldl balanceStep (some a) =
      some ((l.filterMap (fun r => r.remainingBalance)).foldl min a) := by
  induction l generalizing a with
  | nil => rfl
  | cons r t ih =>
      cases hb : r.remainingBalance with
      | none => simp [balanceStep, hb, ih]
      | some b =>
          simp only [List.foldl_cons, List.filterMap_cons, hb, balanceStep]
          rcases lt_or_le b a with hba | hba
          · rw [if_pos hba, ih, min_eq_right hba.le]
          · rw [if_neg (not_lt.mpr hba), ih, min_eq_left hba]

/-- The balance loop of `translate` computes the minimum of the defined balances,
`none` when there are none. -/
theorem foldl_balanceStep_min? (l : List TranslationOutput) :
    l.foldl balanceStep none = (l.filterMap (fun r => r.remainingBalance)).min? := by
  induction l with
  | nil => rfl
  | cons r t ih =>
      cases hb : r.remainingBalance with
      | none => simpa [balanceStep, hb] using ih
      | some b =>
          simp only [List.foldl_cons, List.filterMap_cons, hb, balanceStep,
            foldl_balanceStep_some, List.min?]

/-- The character-count loop sums the defined `charsUsed` values, counting a missing
one as zero. -/
theorem foldl_charsUsed_sum (l : List TranslationOutput) (n : Nat) :
    l.foldl (fun acc r => acc + r.charsUsed.getD 0) n =
      n + (l.map (fun r => r.charsUsed.getD 0)).sum := by
  induction l generalizing n with
  | nil => simp
  | cons r t ih => simp [ih, Nat.add_assoc]

/-- C10: in every summary a successful run returns, `remainingBalance` is the minimum
of the balances the per-language results define (absent when none do) and
`totalCharsUsed` is the sum of the per-language `charsUsed` values with missing
values counted as zero. -/
theorem summary_aggregation (env : Env) (config : TranslationConfig)
    (s : TranslationSummary) (h : translateCore env config = .ok s) :
    s.remainingBalance = (s.results.filterMap (fun r => r.remainingBalance)).min? ∧
    s.totalCharsUsed = (s.results.map (fun r => r.charsUsed.getD 0)).sum := by
  obtain ⟨_, _, _, _, _, _, hchars, hbal⟩ := translateCore_ok_inv h
  constructor
  · rw [hbal, foldl_balanceStep_min?]
  · rw [hchars, foldl_charsUsed_sum]
    simp

/-- Witness for C1 at a concrete run. -/
theorem outputPath_unique_iff_not_incremental_witness :
    outWes.outputPath = some (
      if cfgW1.translateOnlyNewStrings.getD false then
        envW.generateTargetFilePath (envW.resolvePath cfgW1.sourceFile) outWes.language
      else
        envW.getUniqueFilePath
          (envW.generateTargetFilePath (envW.resolvePath cfgW1.sourceFile) outWes.language)) :=
  outputPath_unique_iff_not_incremental envW cfgW1 sumW1 rfl outWes (by decide) rfl

/-- Witness for C2 at concrete runs: a supplied list bypasses detection, a missing
list triggers it, and empty detection makes the whole operation throw. -/
theorem autodetect_iff_no_supplied_witness :
    resolveTargetLanguages envW (envW.resolvePath cfgW1.sourceFile) cfgW1.targetLanguages =
      .ok ["es"] ∧
    resolveTargetLanguages envW (envW.resolvePath cfgW2.sourceFile) cfgW2.targetLanguages =
      (if envW.detectLanguagesFromProject (envW.resolvePath cfgW2.sourceFile) = []
       then .error noTargetLanguagesMsg
       else .ok (envW.detectLanguagesFromProject (envW.resolvePath cfgW2.sourceFile))) ∧
    translateCore envWempty cfgW2 = .error noTargetLanguagesMsg :=
  ⟨(autodetect_iff_no_supplied envW cfgW1).1 ["es"] rfl (by decide),
   (autodetect_iff_no_supplied envW cfgW2).2.1 (Or.inl rfl),
   (autodetect_iff_no_supplied envWempty cfgW2).2.2 (by decide) rfl rfl "key" rfl rfl⟩

/-- Witness for C3 at a concrete run. -/
theorem translate_empty_source_throws_witness :
    translateCore envW { sourceFile := "" } = .error "sourceFile is required" :=
  translate_empty_source_throws envW { sourceFile := "" } rfl

/-- Witness for C8 at a concrete run. -/
theorem translate_never_rejects_witness :
    translate envW { sourceFile := "" } =
      { success := false, results := [], totalCharsUsed := 0, remainingBalance := none } :=
  translate_never_rejects envW { sourceFile := "" } "sourceFile is required" rfl

/-- Witness for C9 at a concrete run with one failing language. -/
theorem per_language_isolation_witness :
    ((sumW9.success = true) ↔ ∃ r ∈ sumW9.results, r.success = true) ∧
    translateOne envW "key" "en.json" "fr" "fr.json" false true false false true false =
      { success := false, language := "fr", error := some "boom" } :=
  ⟨(per_language_isolation envW cfgW9 sumW9 rfl).1,
   (per_language_isolation envW cfgW9 sumW9 rfl).2.2 "key" "en.json" "fr" "fr.json"
     false true false false true false "boom" rfl⟩

/-- Witness for C10 at a concrete run. -/
theorem summary_aggregation_witness :
    sumW9.remainingBalance = (sumW9.results.filterMap (fun r => r.remainingBalance)).min? ∧
    sumW9.totalCharsUsed = (sumW9.results.map (fun r => r.charsUsed.getD 0)).sum :=
  summary_aggregation envW cfgW9 sumW9 rfl

theorem toLower_toNat_of_upper {c : Char} (h1 : 65 ≤ c.toNat) (h2 : c.toNat ≤ 90) :
    (Char.toLower c).toNat = c.toNat + 32 := by
  have hv : (c.toNat + 32).isValidChar := Or.inl (by omega)
  unfold Char.toLower
  rw [if_pos ⟨h1, h2⟩]
  rw [Char.ofNat, dif_pos hv]
  simp [Char.ofNatAux, Char.toNat, UInt32.toNat]

theorem toLower_eq_self {c : Char} (h : ¬(65 ≤ c.toNat ∧ c.toNat ≤ 90)) :
    Char.toLower c = c := by
  unfold Char.toLower
  rw [if_neg h]

theorem toUpper_toNat_of_lower {c : Char} (h1 : 97 ≤ c.toNat) (h2 : c.toNat ≤ 122) :
    (Char.toUpper c).toNat = c.toNat - 32 := by
  have hv : (c.toNat - 32).isValidChar := Or.inl (by omega)
  unfold Char.toUpper
  rw [if_pos ⟨h1, h2⟩]
  rw [Char.ofNat, dif_pos hv]
  simp [Char.ofNatAux, Char.toNat, UInt32.toNat]

theorem toLower_idem (c : Char) : c.toLower.toLower = c.toLower := by
  by_cases h : 65 ≤ c.toNat ∧ c.toNat ≤ 90
  · have h1 := toLower_toNat_of_upper h.1 h.2
    apply toLower_eq_self
    omega
  · rw [toLower_eq_self h]
    exact toLower_eq_self h

theorem toUpper_eq_self {c : Char} (h : ¬(97 ≤ c.toNat ∧ c.toNat ≤ 122)) :
    Char.toUpper c = c := by
  unfold Char.toUpper
  rw [if_neg h]

theorem toUpper_idem (c : Char) : c.toUpper.toUpper = c.toUpper := by
  by_cases h : 97 ≤ c.toNat ∧ c.toNat ≤ 122
  · have h1 := toUpper_toNat_of_lower h.1 h.2
    apply toUpper_eq_self
    omega
  · rw [toUpper_eq_self h]
    exact toUpper_eq_self h

theorem isSep_iff {c : Char} : isSep c = true ↔ c.toNat = 45 ∨ c.toNat = 95 := by
  constructor
  · intro h
    rcases Bool.or_eq_true_iff.mp h with h | h
    · left
      rw [decide_eq_true_eq] at h
      subst h
      rfl
    · right
      rw [decide_eq_true_eq] at h
      subst h
      rfl
  · intro h
    have : c = '-' ∨ c = '_' := by
      rcases h with h | h
      · left
        apply Char.ext
        have : c.val.toNat = 45 := h
        exact UInt32.toNat.inj (by simpa using this)
      · right
        apply Char.ext
        have : c.val.toNat = 95 := h
        exact UInt32.toNat.inj (by simpa using this)
    rcases this with h | h <;> simp [isSep, h]

theorem isSep_toLower {c : Char} (h : isSep c = false) : isSep c.toLower = false := by
  by_cases hc : 65 ≤ c.toNat ∧ c.toNat ≤ 90
  · have h1 := toLower_toNat_of_upper hc.1 hc.2
    rw [Bool.eq_false_iff]
    intro hs
    rcases isSep_iff.mp hs with hv | hv <;> omega
  · rw [toLower_eq_self hc]
    exact h

theorem isSep_toUpper {c : Char} (h : isSep c = false) : isSep c.toUpper = false := by
  by_cases hc : 97 ≤ c.toNat ∧ c.toNat ≤ 122
  · have h1 := toUpper_toNat_of_lower hc.1 hc.2
    rw [Bool.eq_false_iff]
    intro hs
    rcases isSep_iff.mp hs with hv | hv <;> omega
  · rw [toUpper_eq_self hc]
    exact h

theorem splitByP_ne_nil (p : Char → Bool) (l : List Char) : splitByP p l ≠ [] := by
  cases l with
  | nil => simp [splitByP]
  | cons c cs =>
      unfold splitByP
      by_cases h : p c
      · simp [h]
      · simp only [h]
        rw [if_neg (by simp [h])]
        cases splitByP p cs <;> simp

theorem splitByP_sepfree (p : Char → Bool) (l : List Char) :
    ∀ s ∈ splitByP p l, ∀ c ∈ s, p c = false := by
  induction l with
  | nil =>
      intro s hs c hc
      simp [splitByP] at hs
      subst hs
      simp at hc
  | cons a as ih =>
      intro s hs c hc
      unfold splitByP at hs
      by_cases h : p a
      · rw [if_pos h] at hs
        rcases List.mem_cons.mp hs with h1 | h1
        · subst h1
          simp at hc
        · exact ih s h1 c hc
      · rw [if_neg h] at hs
        rcases hsplit : splitByP p as with _ | ⟨s0, rest⟩
        · exact absurd hsplit (splitByP_ne_nil p as)
        · rw [hsplit] at hs
          rcases List.mem_cons.mp hs with h1 | h1
          · subst h1
            rcases List.mem_cons.mp hc with h2 | h2
            · subst h2
              simpa using h
            · exact ih s0 (by rw [hsplit]; exact List.mem_cons_self s0 rest) c h2
          · exact ih s (by rw [hsplit]; exact List.mem_cons_of_mem s0 h1) c hc

theorem splitByP_sepfree_single (p : Char → Bool) (s : List Char)
    (h : ∀ c ∈ s, p c = false) : splitByP p s = [s] := by
  induction s with
  | nil => rfl
  | cons c cs ih =>
      unfold splitByP
      rw [if_neg (by simpa using h c (List.mem_cons_self c cs))]
      rw [ih (fun c hc => h c (List.mem_cons_of_mem _ hc))]

theorem splitByP_append_sep (p : Char → Bool) (sep : Char) (hsep : p sep = true)
    (s t : List Char) (h : ∀ c ∈ s, p c = false) :
    splitByP p (s ++ sep :: t) = s :: splitByP p t := by
  induction s with
  | nil =>
      simp only [List.nil_append]
      conv_lhs => rw [splitByP]
      rw [if_pos hsep]
  | cons c cs ih =>
      simp only [List.cons_append]
      conv_lhs => rw [splitByP]
      rw [if_neg (by simpa using h c (List.mem_cons_self c cs))]
      rw [ih (fun c hc => h c (List.mem_cons_of_mem _ hc))]

theorem splitByP_joinWith (p : Char → Bool) (sep : Char) (hsep : p sep = true)
    (ss : List (List Char)) (hne : ss ≠ [])
    (h : ∀ s ∈ ss, ∀ c ∈ s, p c = false) :
    splitByP p (joinWith sep ss) = ss := by
  induction ss with
  | nil => exact absurd rfl hne
  | cons s rest ih =>
      cases rest with
      | nil =>
          exact splitByP_sepfree_single p s (h s (List.mem_cons_self s []))
      | cons s2 rest2 =>
          show splitByP p (s ++ sep :: joinWith sep (s2 :: rest2)) = _
          rw [splitByP_append_sep p sep hsep s _ (h s (List.mem_cons_self s _))]
          rw [ih (by simp) (fun u hu c hc => h u (List.mem_cons_of_mem s hu) c hc)]

theorem lowerSeg_idem (s : List Char) : lowerSeg (lowerSeg s) = lowerSeg s := by
  simp [lowerSeg, List.map_map, Function.comp, toLower_idem]

theorem upperSeg_idem (s : List Char) : upperSeg (upperSeg s) = upperSeg s := by
  simp [upperSeg, List.map_map, Function.comp, toUpper_idem]

theorem titleSeg_length (s : List Char) : (titleSeg s).length = s.length := by
  cases s <;> simp [titleSeg]

theorem upperSeg_length (s : List Char) : (upperSeg s).length = s.length := by
  simp [upperSeg]

theorem titleSeg_idem (s : List Char) : titleSeg (titleSeg s) = titleSeg s := by
  cases s with
  | nil => rfl
  | cons c cs =>
      simp only [titleSeg, toUpper_idem, List.map_map]
      simp [Function.comp, toLower_idem]

theorem normTail_idem (s : List Char) : normTail (normTail s) = normTail s := by
  by_cases h : s.length = 4
  · have h1 : normTail s = titleSeg s := by rw [normTail, if_pos h]
    rw [h1, normTail, if_pos (by rw [titleSeg_length]; exact h)]
    exact titleSeg_idem s
  · have h1 : normTail s = upperSeg s := by rw [normTail, if_neg h]
    rw [h1, normTail, if_neg (by rw [upperSeg_length]; exact h)]
    exact upperSeg_idem s

theorem normSegs_idem (ss : List (List Char)) : normSegs (normSegs ss) = normSegs ss := by
  cases ss with
  | nil => rfl
  | cons l rest =>
      simp only [normSegs, lowerSeg_idem, List.map_map]
      congr 1
      apply List.map_congr_left
      intro s _
      exact normTail_idem s

theorem lowerSeg_sepfree {s : List Char} (h : ∀ c ∈ s, isSep c = false) :
    ∀ c ∈ lowerSeg s, isSep c = false := by
  intro c hc
  obtain ⟨c0, hc0, rfl⟩ := List.mem_map.mp hc
  exact isSep_toLower (h c0 hc0)

theorem upperSeg_sepfree {s : List Char} (h : ∀ c ∈ s, isSep c = false) :
    ∀ c ∈ upperSeg s, isSep c = false := by
  intro c hc
  obtain ⟨c0, hc0, rfl⟩ := List.mem_map.mp hc
  exact isSep_toUpper (h c0 hc0)

theorem titleSeg_sepfree {s : List Char} (h : ∀ c ∈ s, isSep c = false) :
    ∀ c ∈ titleSeg s, isSep c = false := by
  cases s with
  | nil => simp [titleSeg]
  | cons c0 cs =>
      intro c hc
      rcases List.mem_cons.mp hc with h1 | h1
      · subst h1
        exact isSep_toUpper (h c0 (List.mem_cons_self c0 cs))
      · obtain ⟨c1, hc1, rfl⟩ := List.mem_map.mp h1
        exact isSep_toLower (h c1 (List.mem_cons_of_mem c0 hc1))

theorem normTail_sepfree {s : List Char} (h : ∀ c ∈ s, isSep c = false) :
    ∀ c ∈ normTail s, isSep c = false := by
  unfold normTail
  by_cases h4 : s.length = 4
  · rw [if_pos h4]
    exact titleSeg_sepfree h
  · rw [if_neg h4]
    exact upperSeg_sepfree h

theorem normSegs_sepfree {ss : List (List Char)}
    (h : ∀ s ∈ ss, ∀ c ∈ s, isSep c = false) :
    ∀ s ∈ normSegs ss, ∀ c ∈ s, isSep c = false := by
  cases ss with
  | nil => simp [normSegs]
  | cons l rest =>
      intro s hs
      rcases List.mem_cons.mp hs with h1 | h1
      · subst h1
        exact lowerSeg_sepfree (h l (List.mem_cons_self l rest))
      · obtain ⟨s0, hs0, rfl⟩ := List.mem_map.mp h1
        exact normTail_sepfree (h s0 (List.mem_cons_of_mem l hs0))

theorem normSegs_ne_nil {ss : List (List Char)} (h : ss ≠ []) : normSegs ss ≠ [] := by
  cases ss with
  | nil => exact absurd rfl h
  | cons l rest => simp [normSegs]

theorem normalizeLanguageTag_idem_all (s : String) :
    normalizeLanguageTag (normalizeLanguageTag s) = normalizeLanguageTag s := by
  unfold normalizeLanguageTag splitSegs
  congr 1
  rw [show (String.mk (joinWith '-' (normSegs (splitByP isSep s.toList)))).toList =
      joinWith '-' (normSegs (splitByP isSep s.toList)) from rfl]
  rw [splitByP_joinWith isSep '-' rfl _ (normSegs_ne_nil (splitByP_ne_nil isSep s.toList))
      (normSegs_sepfree (splitByP_sepfree isSep s.toList))]
  rw [normSegs_idem]

theorem charListLe_iff (la lb : List Char) : charListLe la lb = true ↔ ¬ List.lt lb la := by
  induction la generalizing lb with
  | nil =>
      cases lb with
      | nil =>
          constructor
          · intro _ h
            cases h
          · intro _
            rfl
      | cons b bs =>
          constructor
          · intro _ h
            cases h
          · intro _
            rfl
  | cons a as ih =>
      cases lb with
      | nil =>
          constructor
          · intro h
            exact Bool.noConfusion h
          · intro h
            exact absurd (List.lt.nil a as) h
      | cons b bs =>
          unfold charListLe
          by_cases hab : a < b
          · rw [if_pos hab]
            simp only [true_iff]
            intro h
            cases h with
            | head _ _ h1 => exact absurd hab (asymm h1)
            | tail h1 h2 h3 => exact absurd hab h2
          · rw [if_neg hab]
            by_cases hba : b < a
            · rw [if_pos hba]
              constructor
              · intro h
                exact Bool.noConfusion h
              · intro h
                exact absurd (List.lt.head bs as hba) h
            · rw [if_neg hba]
              rw [ih bs]
              constructor
              · intro h hlt
                cases hlt with
                | head _ _ h1 => exact absurd h1 hba
                | tail h1 h2 h3 => exact h h3
              · intro h hlt
                exact h (List.lt.tail hba hab hlt)

theorem tagLe_iff (a b : String) : tagLe a b = true ↔ a ≤ b := by
  rw [String.le_iff_toList_le, ← not_lt]
  have hlex : (a.toList < b.toList) = List.Lex (· < ·) a.toList b.toList := rfl
  have hlex2 : (b.toList < a.toList) = List.Lex (· < ·) b.toList a.toList := rfl
  rw [hlex2, ← List.lt_iff_lex_lt]
  exact charListLe_iff a.toList b.toList

theorem sortDedupExclude_spec (src : String) (found : List String) :
    (List.insertionSort (fun a b => tagLe a b = true)
      ((found.filter (fun t => t != src)).dedup)).Sorted (· ≤ ·) ∧
    (List.insertionSort (fun a b => tagLe a b = true)
      ((found.filter (fun t => t != src)).dedup)).Nodup ∧
    src ∉ List.insertionSort (fun a b => tagLe a b = true)
      ((found.filter (fun t => t != src)).dedup) := by
  haveI htot : IsTotal String (fun a b => tagLe a b = true) := ⟨fun a b => by
    rcases le_total a b with h | h
    · exact Or.inl ((tagLe_iff a b).mpr h)
    · exact Or.inr ((tagLe_iff b a).mpr h)⟩
  haveI htrans : IsTrans String (fun a b => tagLe a b = true) := ⟨fun a b c hab hbc =>
    (tagLe_iff a c).mpr (le_trans ((tagLe_iff a b).mp hab) ((tagLe_iff b c).mp hbc))⟩
  refine ⟨?_, ?_, ?_⟩
  · exact (List.sorted_insertionSort _ _).imp (fun h => (tagLe_iff _ _).mp h)
  · exact ((found.filter (fun t => t != src)).nodup_dedup).perm
      (List.perm_insertionSort _ _).symm
  · intro hmem
    have h1 : src ∈ (found.filter (fun t => t != src)).dedup :=
      (List.perm_insertionSort _ _).mem_iff.mp hmem
    have h2 : src ∈ found.filter (fun t => t != src) := List.mem_dedup.mp h1
    have h3 := List.of_mem_filter h2
    simp at h3

/-- C5: for every source file, `detectTargetLanguages` returns a sequence that is
sorted alphabetically, has no duplicates, and never contains the source file's own
language; and on a directory holding `en.json`, `es.json`, `fr.json` with source
`en.json` it returns exactly `["es", "fr"]`. -/
theorem detectTargetLanguages_props (fileName : String) (fs : DirSnapshot) :
    (detectTargetLanguages fileName fs).Sorted (· ≤ ·) ∧
    (detectTargetLanguages fileName fs).Nodup ∧
    (∀ srcTag, extractLanguageTag fileName = some srcTag →
      srcTag ∉ detectTargetLanguages fileName fs) ∧
    detectTargetLanguages "en.json"
      { parentDirName := "locales", siblingDirs := [],
        filesInDir := ["en.json", "es.json", "fr.json"] } = ["es", "fr"] := by
  refine ⟨?_, ?_, ?_, by decide⟩
  · cases hx : extractLanguageTag fileName with
    | none => simp [detectTargetLanguages, hx]
    | some srcTag =>
        simp only [detectTargetLanguages, hx]
        exact (sortDedupExclude_spec srcTag _).1
  · cases hx : extractLanguageTag fileName with
    | none => simp [detectTargetLanguages, hx]
    | some srcTag =>
        simp only [detectTargetLanguages, hx]
        exact (sortDedupExclude_spec srcTag _).2.1
  · intro srcTag hx
    simp only [detectTargetLanguages, hx]
    exact (sortDedupExclude_spec srcTag _).2.2

theorem fromDigits_decDigitsAux : ∀ fuel n, n ≤ fuel → fromDigits (decDigitsAux fuel n) = n := by
  intro fuel
  induction fuel with
  | zero =>
      intro n h
      have h0 : n = 0 := Nat.le_zero.mp h
      subst h0
      rfl
  | succ f ih =>
      intro n h
      cases n with
      | zero => rfl
      | succ m =>
          show fromDigits (((m + 1) % 10) :: decDigitsAux f ((m + 1) / 10)) = m + 1
          have hdiv : (m + 1) / 10 ≤ f := by
            have hlt : (m + 1) / 10 < m + 1 := Nat.div_lt_self (Nat.succ_pos m) (by decide)
            omega
          simp only [fromDigits]
          rw [ih ((m + 1) / 10) hdiv]
          exact Nat.mod_add_div (m + 1) 10

theorem decDigitsAux_lt : ∀ fuel n d, d ∈ decDigitsAux fuel n → d < 10 := by
  intro fuel
  induction fuel with
  | zero =>
      intro n d hd
      simp [decDigitsAux] at hd
  | succ f ih =>
      intro n d hd
      cases n with
      | zero => simp [decDigitsAux] at hd
      | succ m =>
          rcases List.mem_cons.mp hd with h | h
          · subst h
            exact Nat.mod_lt _ (by omega)
          · exact ih _ d h

theorem digitChar_sub_48 : ∀ d, d < 10 → (Nat.digitChar d).toNat - 48 = d := by decide

theorem charsToNum_natToChars (n : Nat) : charsToNum (natToChars n) = n := by
  by_cases h0 : n = 0
  · subst h0
    rfl
  · rw [natToChars, if_neg h0]
    unfold charsToNum
    rw [List.map_reverse, List.map_reverse, List.reverse_reverse, List.map_map]
    have hmap : (decDigitsAux n n).map ((fun c : Char => c.toNat - 48) ∘ Nat.digitChar) =
        (decDigitsAux n n).map id := by
      apply List.map_congr_left
      intro d hd
      exact digitChar_sub_48 d (decDigitsAux_lt n n d hd)
    rw [hmap, List.map_id]
    exact fromDigits_decDigitsAux n n le_rfl

theorem natToChars_inj {a b : Nat} (h : natToChars a = natToChars b) : a = b := by
  have := congrArg charsToNum h
  rwa [charsToNum_natToChars, charsToNum_natToChars] at this

theorem insertCounter_inj (p : String) {j k : Nat}
    (h : insertCounter p j = insertCounter p k) : j = k := by
  unfold insertCounter at h
  injection h with h
  have h1 := List.append_cancel_left h
  injection h1 with _ h2
  injection h2 with _ h3
  exact natToChars_inj (List.append_cancel_right h3)

theorem uniqueAux_spec (existing : List String) (p : String) :
    ∀ fuel k, (∃ j, k ≤ j ∧ j < k + fuel ∧ insertCounter p j ∉ existing) →
      ∃ m, k ≤ m ∧ uniqueAux existing p fuel k = insertCounter p m ∧
        insertCounter p m ∉ existing ∧
        ∀ i, k ≤ i → i < m → insertCounter p i ∈ existing := by
  intro fuel
  induction fuel with
  | zero =>
      intro k hex
      obtain ⟨j, h1, h2, _⟩ := hex
      omega
  | succ f ih =>
      intro k hex
      obtain ⟨j, hj1, hj2, hj3⟩ := hex
      by_cases hc : insertCounter p k ∈ existing
      · have hne : j ≠ k := fun he => hj3 (he ▸ hc)
        obtain ⟨m, hm1, hm2, hm3, hm4⟩ := ih (k + 1) ⟨j, by omega, by omega, hj3⟩
        refine ⟨m, by omega, ?_, hm3, ?_⟩
        · show (if insertCounter p k ∈ existing then uniqueAux existing p f (k + 1)
            else insertCounter p k) = insertCounter p m
          rw [if_pos hc]
          exact hm2
        · intro i hi1 hi2
          rcases Nat.eq_or_lt_of_le hi1 with he | hlt
          · exact he ▸ hc
          · exact hm4 i hlt hi2
      · refine ⟨k, le_rfl, ?_, hc, fun i h1 h2 => absurd (lt_of_le_of_lt h1 h2) (lt_irrefl k)⟩
        show (if insertCounter p k ∈ existing then uniqueAux existing p f (k + 1)
          else insertCounter p k) = insertCounter p k
        rw [if_neg hc]

theorem exists_free_counter (existing : List String) (p : String) :
    ∃ j, 1 ≤ j ∧ j < existing.length + 2 ∧ insertCounter p j ∉ existing := by
  by_contra hcon
  push_neg at hcon
  have hsub : ((List.range' 1 (existing.length + 1)).map (insertCounter p)) ⊆ existing := by
    intro x hx
    obtain ⟨j, hj, rfl⟩ := List.mem_map.mp hx
    obtain ⟨i, hi, rfl⟩ := List.mem_range'.mp hj
    exact hcon _ (by omega) (by omega)
  have hnd : ((List.range' 1 (existing.length + 1)).map (insertCounter p)).Nodup :=
    (List.nodup_range' _ _).map (fun a b hab => insertCounter_inj p hab)
  have hle := (List.subperm_of_subset hnd hsub).length_le
  simp at hle

/-- C7: `uniquePath` returns its candidate unchanged when no file exists at that
path; otherwise it returns the first path obtained by inserting a parenthesized
counter before the extension, starting at `(1)` and incrementing, that does not
exist; the returned path never exists; and with `output.json` and
`output (1).json` both existing it returns `output (2).json`. -/
theorem uniquePath_spec (existing : List String) (p : String) :
    (p ∉ existing → uniquePath existing p = p) ∧
    uniquePath existing p ∉ existing ∧
    (p ∈ existing → ∃ k, 1 ≤ k ∧ uniquePath existing p = insertCounter p k ∧
      insertCounter p k ∉ existing ∧
      ∀ j, 1 ≤ j → j < k → insertCounter p j ∈ existing) ∧
    uniquePath ["output.json", "output (1).json"] "output.json" = "output (2).json" := by
  have hmain : p ∈ existing → ∃ k, 1 ≤ k ∧ uniquePath existing p = insertCounter p k ∧
      insertCounter p k ∉ existing ∧
      ∀ j, 1 ≤ j → j < k → insertCounter p j ∈ existing := by
    intro hp
    obtain ⟨j, h1, h2, h3⟩ := exists_free_counter existing p
    obtain ⟨m, hm1, hm2, hm3, hm4⟩ :=
      uniqueAux_spec existing p (existing.length + 1) 1 ⟨j, h1, by omega, h3⟩
    refine ⟨m, hm1, ?_, hm3, hm4⟩
    unfold uniquePath
    rw [if_pos hp]
    exact hm2
  refine ⟨?_, ?_, hmain, by decide⟩
  · intro hp
    unfold uniquePath
    rw [if_neg hp]
  · by_cases hp : p ∈ existing
    · obtain ⟨k, _, he, hnotin, _⟩ := hmain hp
      rw [he]
      exact hnotin
    · have he : uniquePath existing p = p := by
        unfold uniquePath
        rw [if_neg hp]
      rw [he]
      exact hp

/-- C4: language-tag normalization is idempotent on every valid tag (the proof in
`normalizeLanguageTag_idem_all` shows it for every string). -/
theorem normalizeLanguageTag_idempotent (t : String) (h : isValidLanguageTag t = true) :
    normalizeLanguageTag (normalizeLanguageTag t) = normalizeLanguageTag t :=
  normalizeLanguageTag_idem_all t

/-- Witness for C4 at a concrete valid tag. -/
theorem normalizeLanguageTag_idempotent_witness :
    isValidLanguageTag "ZH_HANS_CN" = true ∧
    normalizeLanguageTag (normalizeLanguageTag "ZH_HANS_CN") =
      normalizeLanguageTag "ZH_HANS_CN" :=
  ⟨by decide, normalizeLanguageTag_idempotent "ZH_HANS_CN" (by decide)⟩

/-- Witness for C5 at the concrete directory of the claim. -/
theorem detectTargetLanguages_props_witness :
    "en" ∉ detectTargetLanguages "en.json"
      { parentDirName := "locales", siblingDirs := [],
        filesInDir := ["en.json", "es.json", "fr.json"] } :=
  (detectTargetLanguages_props "en.json"
    { parentDirName := "locales", siblingDirs := [],
      filesInDir := ["en.json", "es.json", "fr.json"] }).2.2.1 "en" (by decide)

/-- C6: `buildTargetPath` produces the layout-specific output path: file-based
JSON replaces the stem tag, Shopify drops `.default.` and keeps `.schema.`, and
ARB keeps the prefix and converts hyphens of the target tag to underscores. -/
theorem buildTargetPath_layouts :
    buildTargetPath "locales/en.json" "es" = some "locales/es.json" ∧
    buildTargetPath "locales/en.default.schema.json" "es-ES" =
      some "locales/es-ES.schema.json" ∧
    buildTargetPath "lib/l10n/app_en_US.arb" "es_ES" =
      some "lib/l10n/app_es_ES.arb" := by
  refine ⟨by decide, by decide, by decide⟩

/-- Witness for C7 at concrete path lists. -/
theorem uniquePath_spec_witness :
    uniquePath ["output.json"] "other.json" = "other.json" ∧
    uniquePath ["output.json"] "output.json" ∉ ["output.json"] ∧
    (∃ k, 1 ≤ k ∧
      uniquePath ["output.json"] "output.json" = insertCounter "output.json" k ∧
      insertCounter "output.json" k ∉ ["output.json"] ∧
      ∀ j, 1 ≤ j → j < k → insertCounter "output.json" j ∈ ["output.json"]) :=
  ⟨(uniquePath_spec ["output.json"] "other.json").1 (by decide),
   (uniquePath_spec ["output.json"] "output.json").2.1,
   (uniquePath_spec ["output.json"] "output.json").2.2.1 (by decide)⟩

end AiL10n
